import Mathlib

/-!
Verification of the planning and normalization core of a PDF-renaming
script (`script.py`): identifier normalization, CSV dialect fallback,
header resolution, row parsing, rename planning and execution.

Strings are modelled as `List Char` (`Str`) with primitives matching the
Python string methods the script uses (`strip`, `lower`, `endswith`,
`in`, `replace` with one-character patterns).

The filesystem is modelled abstractly: a state carries a canonicalization
function `resolve` (symlink / `..` resolution) together with the list of
canonical paths that currently exist.  A path exists when its resolved
form is in that list; a rename removes the resolved source and adds the
resolved destination.
-/

namespace PdfOrganize

/-- Python strings, as lists of characters. -/
abbrev Str := List Char

/-- Shorthand to write `Str` literals. -/
def str (s : String) : Str := s.toList

/-- The characters Python's `str.strip()` removes (ASCII whitespace). -/
def pyIsSpace (c : Char) : Bool :=
  c = ' ' || c = '\t' || c = '\n' || c = '\r' || c = '\x0b' || c = '\x0c'

/-- Python `str.strip()`: drop whitespace from both ends. -/
def pyStrip (s : Str) : Str :=
  ((s.dropWhile pyIsSpace).reverse.dropWhile pyIsSpace).reverse

/-- Python `str.lower()` (ASCII). -/
def pyLower (s : Str) : Str := s.map Char.toLower

/-- Python `str.endswith(suffix)`. -/
def pyEndsWith (s suffix : Str) : Bool := suffix.isSuffixOf s

/-- Python `needle in haystack` for a one-character needle. -/
def pyContainsChar (s : Str) (c : Char) : Bool := s.contains c

/-- Python `str.replace(old, new)` for a one-character `old`: every
occurrence of `old` is replaced by `new`. -/
def pyReplaceChar (s : Str) (old : Char) (new : Str) : Str :=
  s.flatMap (fun c => if c = old then new else [c])

/-- `ensure_pdf` from the script: strip surrounding whitespace and append
`".pdf"` unless the stripped name already ends with `".pdf"`
case-insensitively. -/
def ensure_pdf (name : Str) : Str :=
  let name := pyStrip name
  if !(pyEndsWith (pyLower name) (str ".pdf")) then name ++ str ".pdf" else name

/-- CSV dialect record, mirroring the fields set by the script's fallback
dialect class. -/
structure Dialect where
  delimiter : Char
  quotechar : Char
  escapechar : Option Char
  doublequote : Bool
  skipinitialspace : Bool
  lineterminator : Str
  deriving Repr, DecidableEq

/-- The fallback dialect the script builds when automatic sniffing fails:
comma if the sample has one, else tab if the sample has one, else
semicolon; double-quote quoting, initial blanks skipped. -/
def fallbackDialect (sample : Str) : Dialect :=
  { delimiter := if pyContainsChar sample ',' then ','
      else if pyContainsChar sample '\t' then '\t' else ';'
    quotechar := '"'
    escapechar := none
    doublequote := true
    skipinitialspace := true
    lineterminator := str "\n" }

/-- `sniff_csv_dialect`: the automatic sniffer is Python's `csv.Sniffer`
(standard library, outside this repository), modelled as an oracle
`detected`; on its failure (`none`) the script falls back to
`fallbackDialect` applied to the leading 2048-character sample. -/
def sniff_csv_dialect (detected : Option Dialect) (content : Str) : Dialect :=
  let sample := content.take 2048
  match detected with
  | some d => d
  | none => fallbackDialect sample

/-! ### CSV header resolution and row parsing (`load_rows`) -/

/-- The required logical CSV columns: `path`, `folio`, `folio_correcto`. -/
def requiredCols : List Str := [str "path", str "folio", str "folio_correcto"]

/-- Association-list lookup where a later binding shadows an earlier one,
matching Python dict construction from an iterated comprehension. -/
def dlookup (m : List (Str × Str)) (k : Str) : Option Str :=
  m.foldl (fun acc p => if p.1 == k then some p.2 else acc) none

/-- The direct header map: lower-cased, trimmed header name ↦ original. -/
def directMap (fieldnames : List Str) : List (Str × Str) :=
  fieldnames.map (fun f => (pyLower (pyStrip f), f))

/-- Key normalization used by the fuzzy step: drop spaces, then turn
hyphens into underscores. -/
def normKey (k : Str) : Str :=
  pyReplaceChar (pyReplaceChar k ' ' []) '-' (str "_")

/-- The header map with fuzzy-normalized keys. -/
def altMap (fieldnames : List Str) : List (Str × Str) :=
  (directMap fieldnames).map (fun kv => (normKey kv.1, kv.2))

/-- The synonym candidates tried for `folio_correcto`. -/
def fcSynonyms : List Str :=
  [str "folio_correcto", str "foliocorrecto", str "folio-correcto",
   str "folio correcto"]

/-- The first synonym of `folio_correcto` whose normalized form is a key
of the normalized header map. -/
def fuzzyFolioCorrecto (fieldnames : List Str) : Option Str :=
  fcSynonyms.findSome? (fun cand => dlookup (altMap fieldnames) (normKey cand))

/-- The resolved original header names of the three required columns. -/
structure FieldMap where
  pathCol : Str
  folioCol : Str
  folioCorrectoCol : Str
  deriving Repr, DecidableEq

/-- Header resolution of `load_rows`: build the direct map; if any
required column is missing, rebuild a map keyed by the required names,
taking direct hits where available and otherwise — for `folio_correcto`
only — the first matching synonym; columns still missing make the run
fail with the required and the found header names. -/
def resolveHeaders (fieldnames : List Str) :
    Except (List Str × List Str) FieldMap :=
  let field_map := directMap fieldnames
  let missing := requiredCols.filter (fun r => (dlookup field_map r).isNone)
  if missing = [] then
    .ok ⟨(dlookup field_map (str "path")).getD [],
         (dlookup field_map (str "folio")).getD [],
         (dlookup field_map (str "folio_correcto")).getD []⟩
  else
    let remapped := requiredCols.filterMap (fun r =>
      match dlookup field_map r with
      | some orig => some (r, orig)
      | none =>
          if r = str "folio_correcto" then
            match fuzzyFolioCorrecto fieldnames with
            | some orig => some (r, orig)
            | none => none
          else none)
    let missing2 := requiredCols.filter (fun r => (dlookup remapped r).isNone)
    if missing2 = [] then
      .ok ⟨(dlookup remapped (str "path")).getD [],
           (dlookup remapped (str "folio")).getD [],
           (dlookup remapped (str "folio_correcto")).getD []⟩
    else .error (requiredCols, fieldnames)

/-- A raw CSV data row as `csv.DictReader` yields it: original header
name ↦ cell.  A missing key models a `KeyError` lookup; a present key
with value `none` models a Python `None` cell. -/
abbrev RawRow := List (Str × Option Str)

/-- `(raw[k] or "")`: `none` when the key is missing (`KeyError`),
otherwise the cell with `None` coerced to the empty string. -/
def getField (raw : RawRow) (k : Str) : Option Str :=
  match raw.foldl (fun acc p => if p.1 == k then some p.2 else acc) none with
  | none => none
  | some v => some (v.getD [])

/-- One correction record parsed from a CSV data row. -/
structure Row where
  rel_path : Str
  folio : Str
  folio_ok : Str
  rownum : Nat
  deriving Repr, DecidableEq

/-- Parsing of one data row numbered `i`: extract the three mapped
fields, strip whitespace; the row is dropped when a key is missing
(`KeyError`) or any stripped value is empty. -/
def parseRow (fm : FieldMap) (i : Nat) (raw : RawRow) : Option Row :=
  match getField raw fm.pathCol, getField raw fm.folioCol,
        getField raw fm.folioCorrectoCol with
  | some p, some f, some fo =>
      let rel_path := pyStrip p
      let folio := pyStrip f
      let folio_ok := pyStrip fo
      if rel_path.isEmpty || folio.isEmpty || folio_ok.isEmpty then none
      else some ⟨rel_path, folio, folio_ok, i⟩
  | _, _, _ => none

/-- The row loop of `load_rows`, numbering rows from `i`. -/
def loadRowsAux (fm : FieldMap) : Nat → List RawRow → List Row
  | _, [] => []
  | i, raw :: rest =>
    match parseRow fm i raw with
    | some r => r :: loadRowsAux fm (i + 1) rest
    | none => loadRowsAux fm (i + 1) rest

/-- All valid records of a CSV body, numbered from 2 (the line after the
header). -/
def parseRows (fm : FieldMap) (raws : List RawRow) : List Row :=
  loadRowsAux fm 2 raws

/-- `load_rows`: resolve the headers, then parse every data row. -/
def load_rows (fieldnames : List Str) (raws : List RawRow) :
    Except (List Str × List Str) (List Row) :=
  match resolveHeaders fieldnames with
  | .error e => .error e
  | .ok fm => .ok (parseRows fm raws)

/-! ### Filesystem model, rename planner and executor -/

/-- Abstract filesystem: `resolve` canonicalizes a path (symlinks, `..`,
case mapping); `files` lists the canonical paths that exist. -/
structure FS where
  resolve : Str → Str
  files : List Str

/-- `Path.exists()`: the resolved path is among the existing ones. -/
def FS.existsP (fs : FS) (p : Str) : Bool :=
  decide (fs.resolve p ∈ fs.files)

/-- `Path.rename(dst)`: the resolved source stops existing, the resolved
destination starts existing. -/
def FS.rename (fs : FS) (src dst : Str) : FS :=
  { fs with
    files := fs.resolve dst :: fs.files.filter (fun q => q ≠ fs.resolve src) }

/-- Path join `a / b`. -/
def joinPath (a b : Str) : Str := a ++ ('/' :: b)

/-- One entry of the rename plan. -/
structure PlanEntry where
  rownum : Nat
  src : Str
  dst : Str
  can_move : Bool

/-- The source path of a record: resolved folder joined with the
`.pdf`-suffixed wrong folio. -/
def srcOf (fs : FS) (base : Str) (r : Row) : Str :=
  joinPath (fs.resolve (joinPath base r.rel_path)) (ensure_pdf r.folio)

/-- The destination path of a record: resolved folder joined with the
`.pdf`-suffixed correct folio. -/
def dstOf (fs : FS) (base : Str) (r : Row) : Str :=
  joinPath (fs.resolve (joinPath base r.rel_path)) (ensure_pdf r.folio_ok)

/-- The plan entry of one record, with the script's `can_move` flag:
source exists and (destination absent or same resolved file as the
source). -/
def planRecord (fs : FS) (base : Str) (r : Row) : PlanEntry :=
  let src := srcOf fs base r
  let dst := dstOf fs base r
  { rownum := r.rownum
    src := src
    dst := dst
    can_move := fs.existsP src &&
      (!(fs.existsP dst) || (fs.resolve src == fs.resolve dst)) }

/-- The plan with the preview tallies. -/
structure PlanOut where
  entries : List PlanEntry
  n_exists : Nat
  n_missing : Nat
  n_conflicts : Nat

/-- One iteration of the preview loop: append the record's entry and
update the three tallies exactly as the script does. -/
def planStep (fs : FS) (base : Str) (acc : PlanOut) (r : Row) : PlanOut :=
  let src := srcOf fs base r
  let dst := dstOf fs base r
  { entries := acc.entries ++ [planRecord fs base r]
    n_exists := acc.n_exists + (if fs.existsP src then 1 else 0)
    n_missing := acc.n_missing + (if fs.existsP src then 0 else 1)
    n_conflicts := acc.n_conflicts +
      (if fs.existsP src && (fs.existsP dst &&
          !(fs.resolve src == fs.resolve dst)) then 1 else 0) }

/-- The whole preview loop. -/
def planAll (fs : FS) (base : Str) (rows : List Row) : PlanOut :=
  rows.foldl (planStep fs base) ⟨[], 0, 0, 0⟩

/-- What the executor reports for one entry. -/
inductive ExecAction where
  /-- `[OMITIDO]`: `can_move` is false (missing source or conflict). -/
  | omitted
  /-- `[YA OK]`: source and destination resolve to the same file. -/
  | alreadyOk
  /-- `[OMITIDO] (destino existe)`: the destination appeared since
  planning. -/
  | omittedDstExists
  /-- `[RENOMBRADO]`: the rename was performed. -/
  | renamed
  deriving Repr, DecidableEq

/-- Outcome of executing one entry. -/
structure StepResult where
  fs : FS
  movedInc : Nat
  skippedInc : Nat
  action : ExecAction

/-- The executor body for one entry, in the script's order: skip when not
movable; no-op when source and destination resolve equal; re-check the
destination and skip if it exists; otherwise rename. -/
def execStep (fs : FS) (e : PlanEntry) : StepResult :=
  if !e.can_move then ⟨fs, 0, 1, .omitted⟩
  else if fs.resolve e.src == fs.resolve e.dst then ⟨fs, 0, 0, .alreadyOk⟩
  else if fs.existsP e.dst then ⟨fs, 0, 1, .omittedDstExists⟩
  else ⟨fs.rename e.src e.dst, 1, 0, .renamed⟩

/-- Final state of the execution loop. -/
structure ExecOut where
  fs : FS
  moved : Nat
  skipped : Nat
  actions : List ExecAction

/-- The whole execution loop with its `moved`/`skipped` totals and the
per-entry report log. -/
def execAll (fs : FS) (entries : List PlanEntry) : ExecOut :=
  entries.foldl
    (fun acc e =>
      let s := execStep acc.fs e
      ⟨s.fs, acc.moved + s.movedInc, acc.skipped + s.skippedInc,
        acc.actions ++ [s.action]⟩)
    ⟨fs, 0, 0, []⟩

/-- Plan-then-execute over already-parsed records. -/
def runCycleRows (fs : FS) (base : Str) (rows : List Row) : ExecOut :=
  execAll fs (planAll fs base rows).entries

/-- The whole run from CSV headers and body: a header-resolution failure
halts everything before any row is parsed or any filesystem action
happens. -/
def runCycle (fs : FS) (base : Str) (fieldnames : List Str)
    (raws : List RawRow) :
    Except (List Str × List Str) (ExecOut × PlanOut × List Row) :=
  match load_rows fieldnames raws with
  | .error e => .error e
  | .ok rows =>
      let plan := planAll fs base rows
      .ok (execAll fs plan.entries, plan, rows)

end PdfOrganize

namespace PdfOrganize

/-- C5: `ensure_pdf` trims surrounding whitespace and appends `".pdf"`
unless the trimmed text already ends with `".pdf"` case-insensitively;
`"17010026"` maps to `"17010026.pdf"` and `"17010026.PDF"` is returned
unchanged (case preserved, no duplicate suffix). -/
theorem ensure_pdf_spec :
    (∀ s : Str, pyEndsWith (pyLower (pyStrip s)) (str ".pdf") = false →
      ensure_pdf s = pyStrip s ++ str ".pdf") ∧
    (∀ s : Str, pyEndsWith (pyLower (pyStrip s)) (str ".pdf") = true →
      ensure_pdf s = pyStrip s) ∧
    ensure_pdf (str "17010026") = str "17010026.pdf" ∧
    ensure_pdf (str "17010026.PDF") = str "17010026.PDF" := by
  refine ⟨?_, ?_, by decide, by decide⟩
  · intro s h
    simp [ensure_pdf, h]
  · intro s h
    simp [ensure_pdf, h]

/-- Witness for `ensure_pdf_spec` at concrete inputs. -/
theorem ensure_pdf_spec_witness :
    ensure_pdf (str " 1704 ") = str "1704.pdf" ∧
    ensure_pdf (str "a.PdF") = str "a.PdF" :=
  ⟨ensure_pdf_spec.1 (str " 1704 ") (by decide),
   ensure_pdf_spec.2.1 (str "a.PdF") (by decide)⟩

/-- C8: when automatic dialect detection fails, the fallback dialect's
delimiter is comma if the 2048-character sample contains a comma, else tab
if it contains a tab, else semicolon, with double-quote quoting and
skipping of initial blanks enabled. -/
theorem sniff_fallback_spec :
    ∀ content : Str,
      (pyContainsChar (content.take 2048) ',' = true →
        (sniff_csv_dialect none content).delimiter = ',') ∧
      (pyContainsChar (content.take 2048) ',' = false →
        pyContainsChar (content.take 2048) '\t' = true →
        (sniff_csv_dialect none content).delimiter = '\t') ∧
      (pyContainsChar (content.take 2048) ',' = false →
        pyContainsChar (content.take 2048) '\t' = false →
        (sniff_csv_dialect none content).delimiter = ';') ∧
      (sniff_csv_dialect none content).quotechar = '"' ∧
      (sniff_csv_dialect none content).doublequote = true ∧
      (sniff_csv_dialect none content).skipinitialspace = true := by
  intro content
  refine ⟨?_, ?_, ?_, rfl, rfl, rfl⟩
  · intro h; simp [sniff_csv_dialect, fallbackDialect, h]
  · intro h1 h2; simp [sniff_csv_dialect, fallbackDialect, h1, h2]
  · intro h1 h2; simp [sniff_csv_dialect, fallbackDialect, h1, h2]

/-- Witness for `sniff_fallback_spec` at concrete samples. -/
theorem sniff_fallback_spec_witness :
    (sniff_csv_dialect none (str "a,b")).delimiter = ',' ∧
    (sniff_csv_dialect none (str "a\tb")).delimiter = '\t' ∧
    (sniff_csv_dialect none (str "a;b")).delimiter = ';' :=
  ⟨(sniff_fallback_spec (str "a,b")).1 (by decide),
   (sniff_fallback_spec (str "a\tb")).2.1 (by decide) (by decide),
   (sniff_fallback_spec (str "a;b")).2.2.1 (by decide) (by decide)⟩

/-- C2: a plan entry's `can_move` flag is true iff the source exists and
the destination either does not exist or resolves to the same filesystem
entity as the source (canonical resolution, not string equality). -/
theorem can_move_iff (fs : FS) (base : Str) (r : Row) :
    (planRecord fs base r).can_move = true ↔
      (fs.existsP (srcOf fs base r) = true ∧
        (fs.existsP (dstOf fs base r) = false ∨
          fs.resolve (dstOf fs base r) = fs.resolve (srcOf fs base r))) := by
  simp only [planRecord, Bool.and_eq_true, Bool.or_eq_true,
    Bool.not_eq_true', beq_iff_eq]
  constructor
  · rintro ⟨h1, h2 | h2⟩
    · exact ⟨h1, Or.inl h2⟩
    · exact ⟨h1, Or.inr h2.symm⟩
  · rintro ⟨h1, h2 | h2⟩
    · exact ⟨h1, Or.inl h2⟩
    · exact ⟨h1, Or.inr h2.symm⟩

/-- C1: for any entry whose destination exists and is a different
resolved entity than the source — whatever its `can_move` flag says —
the executor skips it: the filesystem is unchanged, the moved count does
not grow, the skipped count grows by one, and no rename is reported. -/
theorem exec_never_overwrites (fs : FS) (e : PlanEntry)
    (hdst : fs.existsP e.dst = true)
    (hne : fs.resolve e.src ≠ fs.resolve e.dst) :
    (execStep fs e).fs = fs ∧ (execStep fs e).movedInc = 0 ∧
      (execStep fs e).skippedInc = 1 ∧
      (execStep fs e).action ≠ ExecAction.renamed := by
  cases hc : e.can_move <;>
    simp [execStep, hc, hdst, beq_iff_eq, hne]

/-- Witness for `exec_never_overwrites` at a concrete two-file state. -/
theorem exec_never_overwrites_witness :
    (execStep (FS.mk id [str "/b/x.pdf", str "/b/y.pdf"])
          ⟨2, str "/b/x.pdf", str "/b/y.pdf", true⟩).fs =
        FS.mk id [str "/b/x.pdf", str "/b/y.pdf"] ∧
      (execStep (FS.mk id [str "/b/x.pdf", str "/b/y.pdf"])
          ⟨2, str "/b/x.pdf", str "/b/y.pdf", true⟩).movedInc = 0 ∧
      (execStep (FS.mk id [str "/b/x.pdf", str "/b/y.pdf"])
          ⟨2, str "/b/x.pdf", str "/b/y.pdf", true⟩).skippedInc = 1 ∧
      (execStep (FS.mk id [str "/b/x.pdf", str "/b/y.pdf"])
          ⟨2, str "/b/x.pdf", str "/b/y.pdf", true⟩).action ≠
        ExecAction.renamed :=
  exec_never_overwrites (FS.mk id [str "/b/x.pdf", str "/b/y.pdf"])
    ⟨2, str "/b/x.pdf", str "/b/y.pdf", true⟩ (by decide) (by decide)

theorem plan_foldl_entries (fs : FS) (base : Str) :
    ∀ (rows : List Row) (acc : PlanOut),
      (List.foldl (planStep fs base) acc rows).entries =
        acc.entries ++ rows.map (planRecord fs base)
  | [], acc => by simp
  | r :: rest, acc => by
      rw [List.foldl_cons, plan_foldl_entries fs base rest (planStep fs base acc r)]
      simp [planStep]

theorem plan_foldl_counts (fs : FS) (base : Str) :
    ∀ (rows : List Row) (acc : PlanOut),
      (List.foldl (planStep fs base) acc rows).n_exists +
          (List.foldl (planStep fs base) acc rows).n_missing =
        acc.n_exists + acc.n_missing + rows.length
  | [], acc => by simp
  | r :: rest, acc => by
      rw [List.foldl_cons, plan_foldl_counts fs base rest (planStep fs base acc r)]
      cases h : fs.existsP (srcOf fs base r) <;> simp [planStep, h] <;> omega

theorem plan_foldl_conflicts (fs : FS) (base : Str) :
    ∀ (rows : List Row) (acc : PlanOut),
      acc.n_conflicts ≤ acc.n_exists →
      (List.foldl (planStep fs base) acc rows).n_conflicts ≤
        (List.foldl (planStep fs base) acc rows).n_exists
  | [], _, h => h
  | r :: rest, acc, h => by
      rw [List.foldl_cons]
      refine plan_foldl_conflicts fs base rest (planStep fs base acc r) ?_
      cases hs : fs.existsP (srcOf fs base r) <;> simp [planStep, hs]
      · exact h
      · split <;> omega

/-- C9: planning yields exactly one entry per record, in record order;
the sources-found and sources-missing tallies sum to the number of
records; the conflict tally never exceeds the sources-found tally. -/
theorem plan_shape (fs : FS) (base : Str) (rows : List Row) :
    (planAll fs base rows).entries = rows.map (planRecord fs base) ∧
      (planAll fs base rows).n_exists + (planAll fs base rows).n_missing =
        rows.length ∧
      (planAll fs base rows).n_conflicts ≤ (planAll fs base rows).n_exists := by
  refine ⟨?_, ?_, ?_⟩
  · simpa [planAll] using plan_foldl_entries fs base rows ⟨[], 0, 0, 0⟩
  · simpa [planAll] using plan_foldl_counts fs base rows ⟨[], 0, 0, 0⟩
  · exact plan_foldl_conflicts fs base rows ⟨[], 0, 0, 0⟩ (Nat.le_refl 0)

/-- C10: an executable entry whose source and destination resolve to the
same entity is counted in neither total, so `moved + skipped` can fall
short of the number of plan entries — witnessed by a concrete case-only
collision run where one entry yields `moved + skipped = 0 < 1`. -/
theorem already_correct_uncounted :
    (∀ (fs : FS) (e : PlanEntry), e.can_move = true →
        fs.resolve e.src = fs.resolve e.dst →
        (execStep fs e).fs = fs ∧ (execStep fs e).movedInc = 0 ∧
          (execStep fs e).skippedInc = 0 ∧
          (execStep fs e).action = ExecAction.alreadyOk) ∧
      (runCycleRows (FS.mk id [str "/b/d/a.pdf"]) (str "/b")
            [⟨str "d", str "a", str "a", 2⟩]).moved +
          (runCycleRows (FS.mk id [str "/b/d/a.pdf"]) (str "/b")
            [⟨str "d", str "a", str "a", 2⟩]).skipped <
        (planAll (FS.mk id [str "/b/d/a.pdf"]) (str "/b")
            [⟨str "d", str "a", str "a", 2⟩]).entries.length := by
  constructor
  · intro fs e hc he
    simp [execStep, hc, he]
  · decide

/-- Witness for `already_correct_uncounted` at a concrete entry. -/
theorem already_correct_uncounted_witness :
    (execStep (FS.mk id [str "/p/a.pdf"])
          ⟨3, str "/p/a.pdf", str "/p/a.pdf", true⟩).fs =
        FS.mk id [str "/p/a.pdf"] ∧
      (execStep (FS.mk id [str "/p/a.pdf"])
          ⟨3, str "/p/a.pdf", str "/p/a.pdf", true⟩).movedInc = 0 ∧
      (execStep (FS.mk id [str "/p/a.pdf"])
          ⟨3, str "/p/a.pdf", str "/p/a.pdf", true⟩).skippedInc = 0 ∧
      (execStep (FS.mk id [str "/p/a.pdf"])
          ⟨3, str "/p/a.pdf", str "/p/a.pdf", true⟩).action =
        ExecAction.alreadyOk :=
  already_correct_uncounted.1 (FS.mk id [str "/p/a.pdf"])
    ⟨3, str "/p/a.pdf", str "/p/a.pdf", true⟩ rfl rfl

/-- C3 counterexample: on a base directory holding `/b/d/w.pdf` and the
single record `d, w, c`, the first cycle renames the file (`moved = 1`),
but the second cycle reports the entry as omitted for a missing source —
not as already-correct — because the old source name no longer exists.
Moreover, with the record list `d,w,c ; d,c,x` the second cycle performs
one additional move (the first cycle unblocks the chained rename), so the
zero-additional-moves conjunct also fails for multi-record plans. -/
theorem second_run_not_already_ok_cex :
    (runCycleRows (FS.mk id [str "/b/d/w.pdf"]) (str "/b")
        [⟨str "d", str "w", str "c", 2⟩]).moved = 1 ∧
      (runCycleRows (FS.mk id [str "/b/d/w.pdf"]) (str "/b")
          [⟨str "d", str "w", str "c", 2⟩]).actions =
        [ExecAction.renamed] ∧
      (runCycleRows
          (runCycleRows (FS.mk id [str "/b/d/w.pdf"]) (str "/b")
            [⟨str "d", str "w", str "c", 2⟩]).fs (str "/b")
          [⟨str "d", str "w", str "c", 2⟩]).moved = 0 ∧
      (runCycleRows
          (runCycleRows (FS.mk id [str "/b/d/w.pdf"]) (str "/b")
            [⟨str "d", str "w", str "c", 2⟩]).fs (str "/b")
          [⟨str "d", str "w", str "c", 2⟩]).actions ≠
        [ExecAction.alreadyOk] ∧
      (planAll
          (runCycleRows (FS.mk id [str "/b/d/w.pdf"]) (str "/b")
            [⟨str "d", str "w", str "c", 2⟩]).fs (str "/b")
          [⟨str "d", str "w", str "c", 2⟩]).n_missing = 1 ∧
      (runCycleRows
          (runCycleRows (FS.mk id [str "/b/d/w.pdf"]) (str "/b")
            [⟨str "d", str "w", str "c", 2⟩,
              ⟨str "d", str "c", str "x", 3⟩]).fs (str "/b")
          [⟨str "d", str "w", str "c", 2⟩,
            ⟨str "d", str "c", str "x", 3⟩]).moved = 1 := by
  decide

theorem planRecord_src (fs : FS) (base : Str) (r : Row) :
    (planRecord fs base r).src = srcOf fs base r := rfl

theorem planRecord_dst (fs : FS) (base : Str) (r : Row) :
    (planRecord fs base r).dst = dstOf fs base r := rfl

/-- C3 amended: for a single-record plan whose first cycle performed the
rename, the second cycle over the same record performs zero additional
moves; the entry is classified as a missing source and reported as
omitted (not as already-correct). -/
theorem second_run_after_move (fs : FS) (base : Str) (r : Row)
    (h : (runCycleRows fs base [r]).actions = [ExecAction.renamed]) :
    (runCycleRows (runCycleRows fs base [r]).fs base [r]).moved = 0 ∧
      (runCycleRows (runCycleRows fs base [r]).fs base [r]).actions =
        [ExecAction.omitted] ∧
      (planAll (runCycleRows fs base [r]).fs base [r]).n_missing = 1 := by
  cases hc : (planRecord fs base r).can_move
  · exfalso
    simp [runCycleRows, planAll, execAll, execStep, planStep, hc] at h
  · by_cases hbeq : fs.resolve (srcOf fs base r) = fs.resolve (dstOf fs base r)
    · exfalso
      simp [runCycleRows, planAll, execAll, execStep, planStep, hc,
        planRecord_src, planRecord_dst, hbeq] at h
    · cases hdst : fs.existsP (dstOf fs base r)
      case neg.true =>
        exfalso
        simp [runCycleRows, planAll, execAll, execStep, planStep, hc,
          planRecord_src, planRecord_dst, hbeq, hdst] at h
      case neg.false =>
      have hfs1 : (runCycleRows fs base [r]).fs =
          fs.rename (srcOf fs base r) (dstOf fs base r) := by
        simp [runCycleRows, planAll, execAll, execStep, planStep, hc,
          planRecord_src, planRecord_dst, hbeq, hdst]
      rw [hfs1]
      have hex : (fs.rename (srcOf fs base r) (dstOf fs base r)).existsP
          (srcOf (fs.rename (srcOf fs base r) (dstOf fs base r)) base r) =
            false := by
        show decide (fs.resolve (srcOf fs base r) ∈
          fs.resolve (dstOf fs base r) ::
            fs.files.filter (fun q => q ≠ fs.resolve (srcOf fs base r))) = false
        simp only [decide_eq_false_iff_not, List.mem_cons, List.mem_filter,
          decide_eq_true_eq]
        rintro (hhd | ⟨-, hq⟩)
        · exact hbeq hhd
        · exact hq rfl
      have hcm2 : (planRecord (fs.rename (srcOf fs base r) (dstOf fs base r))
          base r).can_move = false := by
        simp [planRecord, hex]
      refine ⟨?_, ?_, ?_⟩
      · simp [runCycleRows, planAll, execAll, execStep, planStep, hcm2]
      · simp [runCycleRows, planAll, execAll, execStep, planStep, hcm2]
      · simp [planAll, planStep, hex]

/-- Witness for `second_run_after_move` at the concrete one-file state. -/
theorem second_run_after_move_witness :
    (runCycleRows
        (runCycleRows (FS.mk id [str "/q/d/w.pdf"]) (str "/q")
          [⟨str "d", str "w", str "c", 2⟩]).fs (str "/q")
        [⟨str "d", str "w", str "c", 2⟩]).moved = 0 ∧
      (runCycleRows
          (runCycleRows (FS.mk id [str "/q/d/w.pdf"]) (str "/q")
            [⟨str "d", str "w", str "c", 2⟩]).fs (str "/q")
          [⟨str "d", str "w", str "c", 2⟩]).actions =
        [ExecAction.omitted] ∧
      (planAll
          (runCycleRows (FS.mk id [str "/q/d/w.pdf"]) (str "/q")
            [⟨str "d", str "w", str "c", 2⟩]).fs (str "/q")
          [⟨str "d", str "w", str "c", 2⟩]).n_missing = 1 :=
  second_run_after_move (FS.mk id [str "/q/d/w.pdf"]) (str "/q")
    ⟨str "d", str "w", str "c", 2⟩ (by decide)

/-- Normal form of `resolveHeaders`: a direct hit on all three required
columns succeeds; with `path` and `folio` direct and `folio_correcto`
missing, the synonym search decides the outcome; in every other case the
run fails with the required and the found header names. -/
theorem resolveHeaders_eq (fn : List Str) :
    resolveHeaders fn =
      match dlookup (directMap fn) (str "path"),
          dlookup (directMap fn) (str "folio"),
          dlookup (directMap fn) (str "folio_correcto") with
      | some p, some f, some c => .ok ⟨p, f, c⟩
      | some p, some f, none =>
          (match fuzzyFolioCorrecto fn with
            | some c => .ok ⟨p, f, c⟩
            | none => .error (requiredCols, fn))
      | _, _, _ => .error (requiredCols, fn) := by
  have n1 : ¬(str "path" = str "folio") := by decide
  have n2 : ¬(str "path" = str "folio_correcto") := by decide
  have n3 : ¬(str "folio" = str "path") := by decide
  have n4 : ¬(str "folio" = str "folio_correcto") := by decide
  have n5 : ¬(str "folio_correcto" = str "path") := by decide
  have n6 : ¬(str "folio_correcto" = str "folio") := by decide
  cases h1 : dlookup (directMap fn) (str "path") <;>
    cases h2 : dlookup (directMap fn) (str "folio") <;>
      cases h3 : dlookup (directMap fn) (str "folio_correcto")
  all_goals
    simp only [dlookup, beq_iff_eq] at h1 h2 h3
  all_goals first
    | (simp [resolveHeaders, requiredCols, dlookup, h1, h2, h3,
        List.filterMap_cons, List.filterMap_nil, List.foldl_cons,
        List.foldl_nil, n1, n2, n3, n4, n5, n6]; done)
    | (cases h4 : fuzzyFolioCorrecto fn <;>
        simp [resolveHeaders, requiredCols, dlookup, h1, h2, h3, h4,
          List.filterMap_cons, List.filterMap_nil, List.foldl_cons,
          List.foldl_nil, n1, n2, n3, n4, n5, n6])

/-- C4 counterexample: the header `pa th` normalizes to `path` under the
fuzzy space/hyphen-stripping rule, so per the claim header resolution
should succeed on `pa th, folio, folio_correcto`; the code attempts the
fuzzy step only for `folio_correcto` and fails this header set. -/
theorem fuzzy_only_folio_correcto_cex :
    normKey (pyLower (pyStrip (str "pa th"))) = normKey (str "path") ∧
      resolveHeaders [str "pa th", str "folio", str "folio_correcto"] =
        .error (requiredCols,
          [str "pa th", str "folio", str "folio_correcto"]) :=
  ⟨by decide, by rfl⟩

/-- C4 amended: header resolution succeeds iff `path` and `folio` are
found by the direct lower-cased/trimmed mapping and `folio_correcto` is
found either directly or through the space/hyphen-normalized synonym
list; the fuzzy step is attempted only for `folio_correcto`, so a `path`
or `folio` column missing from the direct mapping always causes
failure. -/
theorem resolveHeaders_ok_iff (fn : List Str) :
    (∃ fm, resolveHeaders fn = .ok fm) ↔
      ((dlookup (directMap fn) (str "path")).isSome = true ∧
        (dlookup (directMap fn) (str "folio")).isSome = true ∧
        ((dlookup (directMap fn) (str "folio_correcto")).isSome = true ∨
          (fuzzyFolioCorrecto fn).isSome = true)) := by
  rw [resolveHeaders_eq]
  cases h1 : dlookup (directMap fn) (str "path") <;>
    cases h2 : dlookup (directMap fn) (str "folio") <;>
      cases h3 : dlookup (directMap fn) (str "folio_correcto") <;>
        cases h4 : fuzzyFolioCorrecto fn <;>
          simp

/-- C6: when required columns stay unresolved even after the fuzzy step,
ingestion fails carrying exactly the required column names and the found
header names, parses no row, and the whole run halts before any
filesystem step. -/
theorem schema_error_halts (fs : FS) (base : Str) (fieldnames : List Str)
    (raws : List RawRow) (e : List Str × List Str)
    (h : resolveHeaders fieldnames = .error e) :
    e = (requiredCols, fieldnames) ∧
      load_rows fieldnames raws = .error (requiredCols, fieldnames) ∧
      runCycle fs base fieldnames raws = .error (requiredCols, fieldnames) := by
  have he : e = (requiredCols, fieldnames) := by
    rw [resolveHeaders_eq] at h
    cases h1 : dlookup (directMap fieldnames) (str "path") <;>
      cases h2 : dlookup (directMap fieldnames) (str "folio") <;>
        cases h3 : dlookup (directMap fieldnames) (str "folio_correcto") <;>
          cases h4 : fuzzyFolioCorrecto fieldnames <;>
            simp [h1, h2, h3, h4] at h <;> exact h.symm
  subst he
  refine ⟨rfl, ?_, ?_⟩
  · simp [load_rows, h]
  · simp [runCycle, load_rows, h]

/-- Witness for `schema_error_halts` at a concrete header list. -/
theorem schema_error_halts_witness :
    ((requiredCols, [str "x"]) : List Str × List Str) =
        (requiredCols, [str "x"]) ∧
      load_rows [str "x"] [] = .error (requiredCols, [str "x"]) ∧
      runCycle (FS.mk id []) [] [str "x"] [] =
        .error (requiredCols, [str "x"]) :=
  schema_error_halts (FS.mk id []) [] [str "x"] []
    (requiredCols, [str "x"]) (by rfl)

theorem parseRow_some_rownum (fm : FieldMap) (i : Nat) (raw : RawRow)
    (r : Row) (h : parseRow fm i raw = some r) : r.rownum = i := by
  cases hp : getField raw fm.pathCol <;>
    cases hf : getField raw fm.folioCol <;>
      cases hfo : getField raw fm.folioCorrectoCol <;>
        simp [parseRow, hp, hf, hfo] at h
  obtain ⟨-, h2⟩ := h
  cases h2
  rfl

theorem loadRowsAux_mem (fm : FieldMap) :
    ∀ (raws : List RawRow) (i : Nat) (r : Row), r ∈ loadRowsAux fm i raws →
      ∃ j raw, raws[j]? = some raw ∧ parseRow fm (i + j) raw = some r
  | [], i, r, h => by simp [loadRowsAux] at h
  | raw0 :: rest, i, r, h => by
      simp only [loadRowsAux] at h
      cases hp : parseRow fm i raw0 with
      | some r0 =>
          rw [hp] at h
          cases h with
          | head => exact ⟨0, raw0, by simp, by simpa using hp⟩
          | tail _ htail =>
              obtain ⟨j, raw, hj, hparse⟩ := loadRowsAux_mem fm rest (i + 1) r htail
              refine ⟨j + 1, raw, by simpa using hj, ?_⟩
              have hji : i + (j + 1) = (i + 1) + j := by omega
              rw [hji]
              exact hparse
      | none =>
          rw [hp] at h
          obtain ⟨j, raw, hj, hparse⟩ := loadRowsAux_mem fm rest (i + 1) r h
          refine ⟨j + 1, raw, by simpa using hj, ?_⟩
          have hji : i + (j + 1) = (i + 1) + j := by omega
          rw [hji]
          exact hparse

theorem loadRowsAux_rownum_ge (fm : FieldMap) (raws : List RawRow) (i : Nat)
    (r : Row) (h : r ∈ loadRowsAux fm i raws) : i ≤ r.rownum := by
  obtain ⟨j, raw, -, hparse⟩ := loadRowsAux_mem fm raws i r h
  have := parseRow_some_rownum fm (i + j) raw r hparse
  omega

theorem loadRowsAux_pairwise (fm : FieldMap) :
    ∀ (raws : List RawRow) (i : Nat),
      ((loadRowsAux fm i raws).map Row.rownum).Pairwise (· < ·)
  | [], i => by simp [loadRowsAux]
  | raw0 :: rest, i => by
      simp only [loadRowsAux]
      cases hp : parseRow fm i raw0 with
      | none => exact loadRowsAux_pairwise fm rest (i + 1)
      | some r0 =>
          simp only [List.map_cons, List.pairwise_cons]
          refine ⟨?_, loadRowsAux_pairwise fm rest (i + 1)⟩
          intro x hx
          obtain ⟨r1, hr1, rfl⟩ := List.mem_map.mp hx
          have h1 := loadRowsAux_rownum_ge fm rest (i + 1) r1 hr1
          have h0 := parseRow_some_rownum fm i raw0 r0 hp
          omega

/-- C7: per data row the three mapped fields are extracted and
whitespace-trimmed; a row with a missing key or with any value empty
after trimming is skipped while later rows keep being processed; rows
are numbered from 2 (the line after the header), the number is retained
in the record, and output order follows file order (row numbers strictly
increase). -/
theorem load_rows_row_handling :
    (∀ (fm : FieldMap) (i : Nat) (raw : RawRow) (p f fo : Str),
        getField raw fm.pathCol = some p →
        getField raw fm.folioCol = some f →
        getField raw fm.folioCorrectoCol = some fo →
        ((pyStrip p).isEmpty || (pyStrip f).isEmpty ||
          (pyStrip fo).isEmpty) = true →
        parseRow fm i raw = none) ∧
      (∀ (fm : FieldMap) (i : Nat) (raw : RawRow),
        (getField raw fm.pathCol = none ∨ getField raw fm.folioCol = none ∨
          getField raw fm.folioCorrectoCol = none) →
        parseRow fm i raw = none) ∧
      (∀ (fm : FieldMap) (i : Nat) (raw : RawRow) (r : Row),
        parseRow fm i raw = some r →
        r.rownum = i ∧ ∃ p f fo,
          getField raw fm.pathCol = some p ∧
          getField raw fm.folioCol = some f ∧
          getField raw fm.folioCorrectoCol = some fo ∧
          r.rel_path = pyStrip p ∧ r.folio = pyStrip f ∧
          r.folio_ok = pyStrip fo) ∧
      (∀ (fm : FieldMap) (raws : List RawRow) (r : Row),
        r ∈ parseRows fm raws →
        2 ≤ r.rownum ∧ ∃ j raw, raws[j]? = some raw ∧
          parseRow fm (2 + j) raw = some r) ∧
      (∀ (fm : FieldMap) (raws : List RawRow),
        ((parseRows fm raws).map Row.rownum).Pairwise (· < ·)) := by
  refine ⟨?_, ?_, ?_, ?_, ?_⟩
  · intro fm i raw p f fo hp hf hfo hempty
    simp [parseRow, hp, hf, hfo, hempty]
  · intro fm i raw hnone
    cases hp : getField raw fm.pathCol <;>
      cases hf : getField raw fm.folioCol <;>
        cases hfo : getField raw fm.folioCorrectoCol <;>
          simp [parseRow, hp, hf, hfo] <;>
            simp [hp, hf, hfo] at hnone
  · intro fm i raw r h
    cases hp : getField raw fm.pathCol <;>
      cases hf : getField raw fm.folioCol <;>
        cases hfo : getField raw fm.folioCorrectoCol <;>
          simp [parseRow, hp, hf, hfo] at h
    obtain ⟨-, h2⟩ := h
    cases h2
    exact ⟨rfl, _, _, _, rfl, rfl, rfl, rfl, rfl, rfl⟩
  · intro fm raws r h
    refine ⟨loadRowsAux_rownum_ge fm raws 2 r h, ?_⟩
    exact loadRowsAux_mem fm raws 2 r h
  · intro fm raws
    exact loadRowsAux_pairwise fm raws 2

/-- Witness for `load_rows_row_handling` on concrete rows: one with a
blank `folio` cell, one missing the `folio` key. -/
theorem load_rows_row_handling_witness :
    parseRow ⟨str "path", str "folio", str "folio_correcto"⟩ 5
        [(str "path", some (str "d")), (str "folio", some (str " ")),
          (str "folio_correcto", some (str "c"))] = none ∧
      parseRow ⟨str "path", str "folio", str "folio_correcto"⟩ 7
        [(str "path", some (str "d")),
          (str "folio_correcto", some (str "c"))] = none :=
  ⟨load_rows_row_handling.1 ⟨str "path", str "folio", str "folio_correcto"⟩ 5
      [(str "path", some (str "d")), (str "folio", some (str " ")),
        (str "folio_correcto", some (str "c"))]
      (str "d") (str " ") (str "c") (by decide) (by decide) (by decide)
      (by decide),
    load_rows_row_handling.2.1 ⟨str "path", str "folio", str "folio_correcto"⟩
      7 [(str "path", some (str "d")), (str "folio_correcto", some (str "c"))]
      (Or.inr (Or.inl (by decide)))⟩

end PdfOrganize
